import Mathlib

attribute [local semireducible] Rat.add Rat.mul Rat.inv Rat.sub Rat.ofScientific

/-!
Verification of the data-preparation and aggregation pipeline of the
long-term-diseases dashboard repository.

The development shallowly embeds the core functions of `src/utils/prep.py`,
`src/utils/io.py` and the department-code normalizer of
`src/sections/map_section.py` as executable Lean definitions and proves the
specified properties about them.

Modelling conventions, stated once here:
* A pandas cell is a `Value`: a (rational) number, a string, or a null
  (covering NaN and pd.NA, which the pipeline treats uniformly via
  isna/dropna).  IEEE special values (inf, nan produced by arithmetic) and
  float rounding are outside the model: numbers are exact rationals.
* A DataFrame is a `DFrame`: one presence flag per column the pipeline
  reads, plus a list of typed rows.  Column presence is a table-level
  property, matching the `"col" in df.columns` checks in the source.
* Categorical dtype (a memory optimisation per the spec) is modelled as
  plain strings; `observed=False` group keys that are unobserved category
  levels produce all-NaN groups that pandas `sum()` skips, so totals agree
  with the observed-keys model used here.
* Python `str.zfill`, `re` matching for the 5-year age pattern, and
  `float()` parsing of finite decimal literals are embedded character by
  character; `float()` inputs such as "inf"/"nan"/underscored digits are
  outside the Rat model and parse to none here.
-/

/-- Whitespace class used by Python str.strip and the regex class \s
(ASCII part; the data uses ASCII whitespace only). -/
def pyIsSpace (c : Char) : Bool :=
  c = ' ' || c = '\t' || c = '\n' || c = '\x0d' || c = '\x0b' || c = '\x0c'

/-- Python str.strip on a character list. -/
def pyStrip (cs : List Char) : List Char :=
  ((cs.dropWhile pyIsSpace).reverse.dropWhile pyIsSpace).reverse

/-- Python str.strip on a string. -/
def pyStripStr (s : String) : String := String.mk (pyStrip s.data)

/-- Number of occurrences of a character in a string, Python
str.count for a single-character needle. -/
def charCount (s : String) (c : Char) : Nat :=
  (s.data.filter (fun d => d = c)).length

/-- Embeds sniff_sep of src/utils/io.py: the separator is a semicolon
exactly when the sample contains one and semicolons are at least as
frequent as commas, else a comma. -/
def sniff_sep (sample : String) : String :=
  if 0 < charCount sample ';' && charCount sample ',' ≤ charCount sample ';' then ";"
  else ","

/-- Embeds the head sampling of read_csv_flexible in src/utils/io.py: the
separator is sniffed on the first 4096 bytes of the input.  The model
identifies bytes with characters (the data is ASCII; the source decodes
with errors ignored). -/
def read_csv_sep (content : String) : String :=
  sniff_sep (String.mk (content.data.take 4096))

/-- Embeds Python str.zfill: pad with zeros on the left up to the given
width, keeping a leading sign in front of the padding. -/
def zfill (width : Nat) (s : String) : String :=
  if width ≤ s.length then s
  else
    match s.data with
    | c :: rest =>
        if c = '+' || c = '-' then
          String.mk (c :: (List.replicate (width - s.length) '0' ++ rest))
        else String.mk (List.replicate (width - s.length) '0' ++ s.data)
    | [] => String.mk (List.replicate width '0')

/-- Decimal digits of a nonnegative integer, Python format n:02d and
n:03d are built from this. -/
def padNat (width : Nat) (n : Nat) : String :=
  let ds := (Nat.toDigits 10 n).map id
  if width ≤ ds.length then String.mk ds
  else String.mk (List.replicate (width - ds.length) '0' ++ ds)

/-- Numeric value of a list of decimal digit characters. -/
def digitsToNat (ds : List Char) : Nat :=
  ds.foldl (fun a c => 10 * a + (c.toNat - 48)) 0

/-- Embeds the inner norm of _zfill_dept in src/sections/map_section.py:
keep the Corsica codes 2A and 2B verbatim; otherwise extract the digits,
and zero-pad the numeric value to 3 digits for the overseas range 970-989
and to 2 digits for everything else; inputs with no digits pass through. -/
def _zfill_dept (x : String) : String :=
  let s := String.mk ((pyStrip x.data).map Char.toUpper)
  if s = "2A" || s = "2B" then s
  else
    let ds := s.data.filter Char.isDigit
    if ds.isEmpty then s
    else
      let n := digitsToNat ds
      if 970 ≤ n && n ≤ 989 then padNat 3 n else padNat 2 n

/-- Power of ten as a rational, for exponents of either sign. -/
def pow10 (e : Int) : Rat :=
  if 0 ≤ e then ((10 : Rat) ^ e.toNat) else 1 / ((10 : Rat) ^ (-e).toNat)

/-- Exponent suffix of a Python float literal: empty, or e/E with an
optional sign and at least one digit. -/
def parseExp : List Char → Option Int
  | [] => some 0
  | c :: rest =>
      if c = 'e' || c = 'E' then
        match rest with
        | '+' :: ds =>
            if !ds.isEmpty && ds.all Char.isDigit then some (digitsToNat ds) else none
        | '-' :: ds =>
            if !ds.isEmpty && ds.all Char.isDigit then some (-(digitsToNat ds : Int)) else none
        | ds =>
            if !ds.isEmpty && ds.all Char.isDigit then some (digitsToNat ds) else none
      else none

/-- Embeds Python float() on finite decimal literals: optional
whitespace and sign, then digits with an optional point and optional
exponent; anything else fails.  inf/nan literals and digit underscores
are outside the Rat model and fail here. -/
def pyFloat (s : String) : Option Rat :=
  let cs := pyStrip s.data
  let signed : Rat × List Char :=
    match cs with
    | '+' :: t => (1, t)
    | '-' :: t => (-1, t)
    | t => (1, t)
  let sign := signed.1
  let body := signed.2
  let ipParts := body.span Char.isDigit
  let ip := ipParts.1
  match ipParts.2 with
  | '.' :: r2 =>
      let fpParts := r2.span Char.isDigit
      let fp := fpParts.1
      if ip.isEmpty && fp.isEmpty then none
      else
        match parseExp fpParts.2 with
        | some e =>
            some (sign * ((digitsToNat ip : Rat) + (digitsToNat fp : Rat) / (10 : Rat) ^ fp.length) * pow10 e)
        | none => none
  | rest =>
      if ip.isEmpty then none
      else
        match parseExp rest with
        | some e => some (sign * (digitsToNat ip : Rat) * pow10 e)
        | none => none

/-- A pandas cell: a number, a string, or a null (NaN and pd.NA are not
distinguished by the pipeline, both answer isna). -/
inductive Value where
  | num (q : Rat)
  | str (s : String)
  | null
deriving DecidableEq

/-- Numeric view of a cell, the composition of pd.to_numeric with
errors coerce followed by dropna: numbers pass, nulls and strings that
do not parse as numbers drop. -/
def toNumOpt : Value → Option Rat
  | .num q => some q
  | .null => none
  | .str s => pyFloat s

/-- Embeds pd.to_numeric with errors coerce on one cell, as used at the
top of make_tables in src/utils/prep.py: numbers and nulls are
unchanged, strings are parsed and unparseable ones become null. -/
def to_numeric (v : Value) : Value :=
  match v with
  | .num q => .num q
  | .null => .null
  | .str s =>
      match pyFloat s with
      | some q => .num q
      | none => .null

/-- Embeds _to_float of src/utils/prep.py: null stays null, otherwise
the value is printed, stripped, commas become dots, and the result is
parsed as a float, with parse failures becoming null.  Printing a number
and reparsing it is the identity, which the num case states directly. -/
def _to_float (x : Value) : Value :=
  match x with
  | .null => .null
  | .num q => .num q
  | .str s =>
      match pyFloat (String.mk ((pyStrip s.data).map (fun c => if c = ',' then '.' else c))) with
      | some q => .num q
      | none => .null

example : sniff_sep "a;b;c" = ";" := by decide
example : sniff_sep "a,b,c" = "," := by decide
example : sniff_sep "a;b,c" = ";" := by decide
example : zfill 3 "99" = "099" := by decide
example : zfill 3 "2A" = "02A" := by decide
example : _zfill_dept "2A" = "2A" := by decide
example : _zfill_dept "99" = "99" := by decide
example : _zfill_dept "971" = "971" := by decide
example : _zfill_dept "9" = "09" := by decide
example : pyFloat "12.5" = some (25 / 2) := by decide
example : pyFloat "abc" = none := by decide
example : pyFloat "" = none := by decide
example : pyFloat " -1.5e2 " = some (-150) := by decide
example : _to_float (.str "12,5") = .num (25 / 2) := by decide
example : _to_float (.str "abc") = .null := by decide
example : _to_float (.str "") = .null := by decide

/-- One typed record of the dataset, covering exactly the columns the
pipeline reads.  String and integer cells that can be missing are
Options; the numeric measure columns are raw cells, since make_tables
and clean_raw re-coerce them. -/
structure Row where
  annee : Option Int
  region : Option String
  dept : Option String
  sexe : Option Int
  cla_age_5 : Option String
  ntop : Value
  npop : Value
  prev : Value
deriving DecidableEq

/-- A table: one presence flag per column of interest plus the rows.
Cells of absent columns are never read. -/
structure DFrame where
  hasAnnee : Bool
  hasRegion : Bool
  hasDept : Bool
  hasSexe : Bool
  hasClaAge : Bool
  hasNtop : Bool
  hasNpop : Bool
  hasPrev : Bool
  rows : List Row
deriving DecidableEq

/-- Python astype(str) on a nullable string cell: NaN prints as nan. -/
def cellStr : Option String → String
  | none => "nan"
  | some s => s

/-- Leading whitespace removal, the regex token \s* of the age pattern. -/
def dropWS (cs : List Char) : List Char := cs.dropWhile pyIsSpace

/-- First alternative of _AGE_5Y_PATTERN: a range label a-b with one or
two digits on both sides, up to surrounding whitespace. -/
def ageAltRange (cs : List Char) : Bool :=
  let p1 := (dropWS cs).span Char.isDigit
  (1 ≤ p1.1.length && p1.1.length ≤ 2) &&
  (match dropWS p1.2 with
   | '-' :: r =>
      let p2 := (dropWS r).span Char.isDigit
      (1 ≤ p2.1.length && p2.1.length ≤ 2) && (dropWS p2.2).isEmpty
   | _ => false)

/-- Second alternative of _AGE_5Y_PATTERN: an open bucket n+ with one or
two digits, up to surrounding whitespace. -/
def ageAltPlus (cs : List Char) : Bool :=
  let p := (dropWS cs).span Char.isDigit
  (1 ≤ p.1.length && p.1.length ≤ 2) &&
  (match dropWS p.2 with
   | '+' :: r => (dropWS r).isEmpty
   | _ => false)

/-- Third alternative of _AGE_5Y_PATTERN: nn et plus with exactly two
digits, up to surrounding whitespace; the caller lowercases first. -/
def ageAltEtPlus (cs : List Char) : Bool :=
  let p := (dropWS cs).span Char.isDigit
  p.1.length == 2 &&
  (match dropWS p.2 with
   | 'e' :: 't' :: r =>
      (match dropWS r with
       | 'p' :: 'l' :: 'u' :: 's' :: r2 => (dropWS r2).isEmpty
       | _ => false)
   | _ => false)

/-- Embeds the search of _AGE_5Y_PATTERN of src/utils/prep.py.  All
three regex alternatives are anchored on both sides, so re.search
succeeds exactly when one alternative matches the whole string; the
IGNORECASE flag is realised by lowercasing. -/
def _AGE_5Y_search (s : String) : Bool :=
  let cs := s.data.map Char.toLower
  ageAltRange cs || ageAltPlus cs || ageAltEtPlus cs

/-- Per-row column rewrite of _filter_population_scope: _ensure_year on
an already typed Int64 year column is the identity and is therefore not
written; the dept column, when present, is reprinted and zero-padded to
3 characters. -/
def scope_map (df : DFrame) (r : Row) : Row :=
  if df.hasDept then { r with dept := some (zfill 3 (cellStr r.dept)) } else r

/-- Per-row keep condition of _filter_population_scope, applied after
scope_map: the aggregate department 999 is dropped when a dept column is
present, and when an age column is present only labels that are nonempty
after stripping and that match the 5-year pattern are kept. -/
def scope_keep (df : DFrame) (r : Row) : Bool :=
  (!df.hasDept || decide (cellStr r.dept ≠ "999")) &&
  (!df.hasClaAge ||
    (0 < (pyStrip (cellStr r.cla_age_5).data).length && _AGE_5Y_search (cellStr r.cla_age_5)))

/-- Embeds _filter_population_scope of src/utils/prep.py on a given row
list (the flags and the rows are passed separately so that appending
rows distributes syntactically). -/
def scope_rows (df : DFrame) (rows : List Row) : List Row :=
  (rows.map (scope_map df)).filter (scope_keep df)

/-- Embeds _filter_population_scope applied to a whole table. -/
def _filter_population_scope (df : DFrame) : List Row := scope_rows df df.rows

/-- The population reducers accepted by _dedup_npop_per_slice; the
lookup in the method dictionary is total on this type. -/
inductive Method where
  | median
  | min
  | max
  | first
deriving DecidableEq

/-- Ordered insertion, the inner step of the insertion sort used to
model sorting. -/
def insertBy (le : α → α → Bool) (x : α) : List α → List α
  | [] => [x]
  | y :: ys => if le x y then x :: y :: ys else y :: insertBy le x ys

/-- Insertion sort; pandas sorting differs only in the order of ties,
which no property below depends on. -/
def sortBy (le : α → α → Bool) (l : List α) : List α :=
  l.foldr (insertBy le) []

/-- Median of a list of rationals as pandas computes it: middle element
of the sorted list, or the mean of the two middle elements. -/
def medianList (l : List Rat) : Rat :=
  let s := sortBy (fun a b => a ≤ b) l
  if s.length = 0 then 0
  else if s.length % 2 = 1 then s.getD (s.length / 2) 0
  else (s.getD (s.length / 2 - 1) 0 + s.getD (s.length / 2) 0) / 2

/-- Collapse of the repeated population figures of one group, the agg
step of _dedup_npop_per_slice: the group value lists produced below are
in row order and nonempty, and nulls were dropped beforehand, so first
is the head. -/
def reduceVals : Method → List Rat → Rat
  | .median, l => medianList l
  | .min, l =>
      match l with
      | [] => 0
      | x :: xs => xs.foldl (fun a b => if a ≤ b then a else b) x
  | .max, l =>
      match l with
      | [] => 0
      | x :: xs => xs.foldl (fun a b => if a ≤ b then b else a) x
  | .first, l => l.headD 0

/-- Values of one group: the npop figures of the rows carrying the
given key, in row order. -/
def valsOf [DecidableEq K] (k : K) (l : List (K × Rat)) : List Rat :=
  (l.filter (fun p => p.1 == k)).map Prod.snd

/-- Sum of the collapsed per-group values over the distinct keys, the
composition of groupby, agg and sum shared by the population union
functions. -/
def groupTotal [DecidableEq K] (m : Method) (l : List (K × Rat)) : Rat :=
  (((l.map Prod.fst).dedup).map (fun k => reduceVals m (valsOf k l))).sum

/-- Grouping key of _dedup_npop_per_slice: the department, paired with
the age class when that column is present. -/
def rowKey (df : DFrame) (r : Row) : String × Option String :=
  (cellStr r.dept, if df.hasClaAge then some (cellStr r.cla_age_5) else none)

/-- The required columns of both population union functions. -/
def requiredCols (df : DFrame) : Bool := df.hasAnnee && df.hasDept && df.hasNpop

/-- Embeds population_union_for_year of src/utils/prep.py: none is the
NaN result for a missing required column or an empty scoped year. -/
def population_union_for_year (df : DFrame) (year : Int) (m : Method) : Option Rat :=
  if requiredCols df then
    let t1 := (_filter_population_scope df).filter (fun r => r.annee == some year)
    if t1.isEmpty then none
    else
      some (groupTotal m
        (t1.filterMap (fun r => (toNumOpt r.npop).map (fun q => (rowKey df r, q)))))
  else none

/-- Scoped rows of a given row list converted to keyed pairs:
year, slice key and numeric population, with rows whose year or
population is null dropped, as the dropna of population_union_by_year
does. -/
def byYearPairsOn (df : DFrame) (rows : List Row) : List (Int × ((String × Option String) × Rat)) :=
  (scope_rows df rows).filterMap (fun r =>
    match r.annee, toNumOpt r.npop with
    | some y, some q => some (y, (rowKey df r, q))
    | _, _ => none)

/-- Keyed pairs of the whole table. -/
def byYearPairs (df : DFrame) : List (Int × ((String × Option String) × Rat)) :=
  byYearPairsOn df df.rows

/-- Keyed pairs restricted to one year. -/
def yearPairs (df : DFrame) (y : Int) : List ((String × Option String) × Rat) :=
  ((byYearPairs df).filter (fun p => p.1 == y)).map Prod.snd

/-- Embeds population_union_by_year of src/utils/prep.py: the empty
list is the empty series for a missing required column or no usable
rows; otherwise one entry per year, sorted ascending, each the sum of
the collapsed per-slice populations of that year.  Grouping by year,
department and age and then summing per year is expressed as per-year
grouping by department and age. -/
def population_union_by_year (df : DFrame) (m : Method) : List (Int × Rat) :=
  if requiredCols df then
    let t2 := byYearPairs df
    if t2.isEmpty then []
    else
      (sortBy (fun a b => a ≤ b) ((t2.map Prod.fst).dedup)).map
        (fun y => (y, groupTotal m (((t2.filter (fun p => p.1 == y)).map Prod.snd))))
  else []

/-- Value of the by-year series at one year, zero when the year is
absent. -/
def lookupYear (s : List (Int × Rat)) (y : Int) : Rat :=
  match s.find? (fun p => p.1 == y) with
  | some p => p.2
  | none => 0

example : _AGE_5Y_search "0-4" = true := by decide
example : _AGE_5Y_search " 95 et plus " = true := by decide
example : _AGE_5Y_search "95+" = true := by decide
example : _AGE_5Y_search "tsage" = false := by decide
example : _AGE_5Y_search "nan" = false := by decide
example : medianList [1000, 1000, 1000, 999, 1000] = 1000 := by decide
example : reduceVals .min [3, 1, 2] = 1 := by decide
example : reduceVals .max [3, 1, 2] = 3 := by decide
example : groupTotal .median [(("001", some "0-4"), (1000 : Rat)), (("001", some "0-4"), 999),
    (("002", some "0-4"), 50)] = 2099 / 2 := by decide

/-- Embeds the year range filter of clean_raw in src/utils/prep.py,
lines 98-99: a row passes when its year is null or between 2000 and
2100 inclusive; pd.NA propagates through between and the isna disjunct
turns it into keep. -/
def clean_raw_year_filter (rows : List Row) : List Row :=
  rows.filter (fun r =>
    match r.annee with
    | none => true
    | some y => decide (2000 ≤ y) && decide (y ≤ 2100))

/-- Embeds the in-place numeric coercion at the top of make_tables: each
measure column that is present is rewritten cell by cell with
pd.to_numeric errors coerce.  This is the only mutation of the input
frame the builder performs. -/
def coerce_measures (df : DFrame) : DFrame :=
  { df with rows := df.rows.map (fun r =>
      { r with
        ntop := if df.hasNtop then to_numeric r.ntop else r.ntop,
        npop := if df.hasNpop then to_numeric r.npop else r.npop,
        prev := if df.hasPrev then to_numeric r.prev else r.prev }) }

/-- Numeric content of a measure cell for the aggregations of
make_tables, which run after coerce_measures, so cells are numbers or
nulls; dropna keeps exactly the numbers. -/
def valOf : Value → Option Rat
  | .num q => some q
  | _ => none

/-- Mean of a list, the pandas groupby mean of one group. -/
def meanList (l : List Rat) : Rat := l.sum / (l.length : Rat)

/-- Embeds the timeseries table of make_tables: mean prevalence per
year over the rows with both year and prevalence, ascending by year. -/
def timeseriesOf (df : DFrame) : List (Int × Rat) :=
  let pts := df.rows.filterMap (fun r =>
    match r.annee, valOf r.prev with
    | some y, some p => some (y, p)
    | _, _ => none)
  (sortBy (fun a b => a ≤ b) ((pts.map Prod.fst).dedup)).map
    (fun y => (y, meanList ((pts.filter (fun t => t.1 == y)).map Prod.snd)))

/-- Embeds the by_region table of make_tables: unweighted mean
prevalence per region over the rows with both region and prevalence,
descending by mean. -/
def by_regionOf (df : DFrame) : List (String × Rat) :=
  let pts := df.rows.filterMap (fun r =>
    match r.region, valOf r.prev with
    | some g, some p => some (g, p)
    | _, _ => none)
  sortBy (fun a b => b.2 ≤ a.2)
    (((pts.map Prod.fst).dedup).map
      (fun g => (g, meanList ((pts.filter (fun t => t.1 == g)).map Prod.snd))))

/-- Rows usable by the weighted per-region table: region, prevalence
and population all present. -/
def weightedPts (df : DFrame) : List (String × (Rat × Rat)) :=
  df.rows.filterMap (fun r =>
    match r.region, valOf r.prev, valOf r.npop with
    | some g, some p, some w => some (g, (p, w))
    | _, _, _ => none)

/-- Embeds the by_region_weighted table of make_tables: per region, the
sum of prevalence times population divided by the sum of population,
descending by the weighted mean. -/
def by_region_weightedOf (df : DFrame) : List (String × Rat) :=
  let pts := weightedPts df
  sortBy (fun a b => b.2 ≤ a.2)
    (((pts.map Prod.fst).dedup).map
      (fun g =>
        let grp := (pts.filter (fun t => t.1 == g)).map Prod.snd
        (g, ((grp.map (fun pw => pw.1 * pw.2)).sum) / ((grp.map (fun pw => pw.2)).sum))))

/-- Linear-interpolation quantile of a sorted list, as pandas describe
computes percentiles. -/
def quantileSorted (s : List Rat) (p : Rat) : Rat :=
  if s.length = 0 then 0
  else
    let h : Rat := ((s.length - 1 : Nat) : Rat) * p
    let i : Nat := h.floor.toNat
    let lo := s.getD i 0
    let hi := s.getD (i + 1) lo
    lo + (h - (h.floor : Rat)) * (hi - lo)

/-- The describe row of one group.  The standard deviation pandas
reports is the square root of the var field, which is irrational in
general and therefore kept as the variance in this model; pandas
reports NaN for a single observation, modelled as none. -/
structure DescStats where
  count : Nat
  mean : Rat
  var : Option Rat
  min : Rat
  q25 : Rat
  q50 : Rat
  q75 : Rat
  max : Rat
deriving DecidableEq

/-- Descriptive statistics of one group of prevalence values. -/
def describeList (l : List Rat) : DescStats :=
  let s := sortBy (fun a b => a ≤ b) l
  let mu := meanList l
  { count := l.length
    mean := mu
    var := if l.length ≤ 1 then none
           else some (((l.map (fun x => (x - mu) ^ 2)).sum) / ((l.length - 1 : Nat) : Rat))
    min := s.headD 0
    q25 := quantileSorted s (1 / 4)
    q50 := quantileSorted s (1 / 2)
    q75 := quantileSorted s (3 / 4)
    max := s.getD (s.length - 1) 0 }

/-- Embeds the by_sexe_desc table of make_tables: describe on the
prevalence values grouped by sex, keys ascending as groupby sorts
them. -/
def by_sexe_descOf (df : DFrame) : List (Int × DescStats) :=
  let pts := df.rows.filterMap (fun r =>
    match r.sexe, valOf r.prev with
    | some s, some p => some (s, p)
    | _, _ => none)
  (sortBy (fun a b => a ≤ b) ((pts.map Prod.fst).dedup)).map
    (fun s => (s, describeList ((pts.filter (fun t => t.1 == s)).map Prod.snd)))

/-- Column inventory of a table.  The model fixes the harmonized source
order of the columns it tracks. -/
def colsList (df : DFrame) : List String :=
  (if df.hasAnnee then ["annee"] else []) ++
  (if df.hasRegion then ["region"] else []) ++
  (if df.hasDept then ["dept"] else []) ++
  (if df.hasSexe then ["sexe"] else []) ++
  (if df.hasClaAge then ["cla_age_5"] else []) ++
  (if df.hasNtop then ["ntop"] else []) ++
  (if df.hasNpop then ["npop"] else []) ++
  (if df.hasPrev then ["prev"] else [])

/-- The data-quality summary record built unconditionally by
make_tables.  Both population union keys are kept, as the source keeps
both for compatibility. -/
structure DQ where
  rows : Nat
  cols : Nat
  regions : Nat
  departments : Nat
  population_union_npop : Option Rat
  population_union_npop_2023 : Option Rat
  annees : List Int
  has_weight : Bool
  has_sex : Bool
  cols_list : List String
deriving DecidableEq

/-- Embeds the dq block of make_tables.  The try around
population_union_for_year cannot fire in the model, since the embedded
function is total; its NaN results are the none value. -/
def dqOf (df : DFrame) : DQ :=
  { rows := df.rows.length
    cols := (colsList df).length
    regions := if df.hasRegion then ((df.rows.filterMap Row.region).dedup).length else 0
    departments := if df.hasDept then ((df.rows.filterMap Row.dept).dedup).length else 0
    population_union_npop := population_union_for_year df 2023 .median
    population_union_npop_2023 := population_union_for_year df 2023 .median
    annees := if df.hasAnnee then sortBy (fun a b => a ≤ b) ((df.rows.filterMap Row.annee).dedup) else []
    has_weight := df.hasNpop
    has_sex := df.hasSexe
    cols_list := colsList df }

/-- The result mapping of make_tables.  Every sub-table except dq is
optional and omitted when its required columns are missing; dq is a
plain field because the source assigns it unconditionally. -/
structure Tables where
  fine : Option (List Row)
  timeseries : Option (List (Int × Rat))
  by_region : Option (List (String × Rat))
  by_region_weighted : Option (List (String × Rat))
  by_sexe_desc : Option (List (Int × DescStats))
  dq : DQ
deriving DecidableEq

/-- Embeds make_tables of src/utils/prep.py.  The in-place measure
coercion at the top is modelled by computing every sub-table from
coerce_measures df; the narrow fine table is the projection of the rows
onto the present columns, which the row representation already is. -/
def make_tables (df : DFrame) : Tables :=
  let d := coerce_measures df
  { fine :=
      if (d.hasAnnee || d.hasRegion || d.hasDept || d.hasSexe || d.hasClaAge) &&
         (d.hasNtop || d.hasNpop || d.hasPrev) then some d.rows else none
    timeseries := if d.hasAnnee && d.hasPrev then some (timeseriesOf d) else none
    by_region := if d.hasRegion && d.hasPrev then some (by_regionOf d) else none
    by_region_weighted :=
      if d.hasRegion && d.hasPrev && d.hasNpop then some (by_region_weightedOf d) else none
    by_sexe_desc := if d.hasSexe && d.hasPrev then some (by_sexe_descOf d) else none
    dq := dqOf d }

/-- Membership of a getD access within bounds. -/
theorem getD_mem {α : Type} (l : List α) (i : Nat) (d : α) (h : i < l.length) :
    l.getD i d ∈ l := by
  induction l generalizing i with
  | nil => simp at h
  | cons x xs ih =>
      cases i with
      | zero => simp [List.getD]
      | succ n =>
          simp only [List.getD_cons_succ]
          exact List.mem_cons_of_mem _ (ih n (by simpa using h))

/-- Ordered insertion permutes to a cons. -/
theorem insertBy_perm {α : Type} (le : α → α → Bool) (x : α) (l : List α) :
    (insertBy le x l).Perm (x :: l) := by
  induction l with
  | nil => simp [insertBy]
  | cons y ys ih =>
      by_cases h : le x y
      · simp [insertBy, h]
      · simp only [insertBy, h, if_neg, Bool.false_eq_true, not_false_eq_true]
        exact (ih.cons y).trans (List.Perm.swap x y ys)

/-- Insertion sort permutes its input. -/
theorem sortBy_perm {α : Type} (le : α → α → Bool) (l : List α) :
    (sortBy le l).Perm l := by
  induction l with
  | nil => simp [sortBy]
  | cons x xs ih =>
      exact (insertBy_perm le x (sortBy le xs)).trans (ih.cons x)

/-- Membership is preserved by the insertion sort. -/
theorem mem_sortBy {α : Type} {le : α → α → Bool} {a : α} {l : List α} :
    a ∈ sortBy le l ↔ a ∈ l :=
  (sortBy_perm le l).mem_iff

/-- The median of a nonempty list of positive values is positive. -/
theorem medianList_pos (l : List Rat) (hne : l ≠ []) (hpos : ∀ x ∈ l, 0 < x) :
    0 < medianList l := by
  unfold medianList
  have hmem : ∀ x ∈ sortBy (fun a b => decide (a ≤ b)) l, 0 < x := by
    intro x hx
    exact hpos x (mem_sortBy.mp hx)
  have hlen : (sortBy (fun a b => decide (a ≤ b)) l).length = l.length :=
    (sortBy_perm _ l).length_eq
  have hlpos : 0 < l.length := List.length_pos.mpr hne
  set s := sortBy (fun a b => decide (a ≤ b)) l with hs
  have hslen : 0 < s.length := by omega
  rw [if_neg (by omega : ¬ s.length = 0)]
  by_cases hodd : s.length % 2 = 1
  · have hi : s.length / 2 < s.length := by omega
    rw [if_pos hodd]
    exact hmem _ (getD_mem s (s.length / 2) 0 hi)
  · have h2 : 2 ≤ s.length := by omega
    have hi1 : s.length / 2 - 1 < s.length := by omega
    have hi2 : s.length / 2 < s.length := by omega
    have p1 := hmem _ (getD_mem s (s.length / 2 - 1) 0 hi1)
    have p2 := hmem _ (getD_mem s (s.length / 2) 0 hi2)
    rw [if_neg hodd]
    positivity

/-- Every reducer of a nonempty list of positive values is positive. -/
theorem reduceVals_pos (m : Method) (l : List Rat) (hne : l ≠ []) (hpos : ∀ x ∈ l, 0 < x) :
    0 < reduceVals m l := by
  cases m with
  | median => exact medianList_pos l hne hpos
  | min =>
      match l, hne with
      | x :: xs, _ =>
          simp only [reduceVals]
          have hx := hpos x (by simp)
          have : ∀ (ys : List Rat), (∀ z ∈ ys, 0 < z) → ∀ (a : Rat), 0 < a →
              0 < ys.foldl (fun a b => if a ≤ b then a else b) a := by
            intro ys
            induction ys with
            | nil => intro _ a ha; simpa using ha
            | cons z zs ih =>
                intro hz a ha
                simp only [List.foldl_cons]
                by_cases hle : a ≤ z
                · simpa [hle] using ih (fun w hw => hz w (by simp [hw])) a ha
                · simpa [hle] using ih (fun w hw => hz w (by simp [hw])) z (hz z (by simp))
          exact this xs (fun w hw => hpos w (by simp [hw])) x hx
  | max =>
      match l, hne with
      | x :: xs, _ =>
          simp only [reduceVals]
          have hx := hpos x (by simp)
          have : ∀ (ys : List Rat), (∀ z ∈ ys, 0 < z) → ∀ (a : Rat), 0 < a →
              0 < ys.foldl (fun a b => if a ≤ b then b else a) a := by
            intro ys
            induction ys with
            | nil => intro _ a ha; simpa using ha
            | cons z zs ih =>
                intro hz a ha
                simp only [List.foldl_cons]
                by_cases hle : a ≤ z
                · simpa [hle] using ih (fun w hw => hz w (by simp [hw])) z (hz z (by simp))
                · simpa [hle] using ih (fun w hw => hz w (by simp [hw])) a ha
          exact this xs (fun w hw => hpos w (by simp [hw])) x hx
  | first =>
      match l, hne with
      | x :: xs, _ => simpa [reduceVals] using hpos x (by simp)

/-- Deduplication does not change the key set. -/
theorem dedup_toFinset {α : Type} [DecidableEq α] (l : List α) :
    l.dedup.toFinset = l.toFinset := by
  ext a
  simp [List.mem_toFinset, List.mem_dedup]

/-- Group values distribute over list append. -/
theorem valsOf_append {K : Type} [DecidableEq K] (k : K) (P Q : List (K × Rat)) :
    valsOf k (P ++ Q) = valsOf k P ++ valsOf k Q := by
  simp [valsOf, List.filter_append]

/-- The grouped total is the finite sum of the collapsed values over
the key set. -/
theorem groupTotal_eq_sum {K : Type} [DecidableEq K] (m : Method) (l : List (K × Rat)) :
    groupTotal m l = ((l.map Prod.fst).toFinset).sum (fun k => reduceVals m (valsOf k l)) := by
  unfold groupTotal
  rw [← List.sum_toFinset _ (List.nodup_dedup _), dedup_toFinset]

/-- Appending rows that all carry one fresh key adds exactly the
collapsed value of the new group to the grouped total. -/
theorem groupTotal_append_newkey {K : Type} [DecidableEq K] (m : Method)
    (P Q : List (K × Rat)) (k : K)
    (hQ : ∀ p ∈ Q, p.1 = k) (hP : ∀ p ∈ P, p.1 ≠ k) (hne : Q ≠ []) :
    groupTotal m (P ++ Q) = groupTotal m P + reduceVals m (Q.map Prod.snd) := by
  have hvQ_self : valsOf k Q = Q.map Prod.snd := by
    unfold valsOf
    rw [List.filter_eq_self.mpr]
    intro p hp
    simpa using hQ p hp
  have hvP : valsOf k P = [] := by
    unfold valsOf
    rw [List.filter_eq_nil_iff.mpr]
    · rfl
    · intro p hp
      simpa using hP p hp
  have hvQ_other : ∀ x, x ≠ k → valsOf x Q = [] := by
    intro x hx
    unfold valsOf
    rw [List.filter_eq_nil_iff.mpr]
    · rfl
    · intro p hp
      have hpk := hQ p hp
      simp [hpk]
      exact fun h => hx h.symm
  have hkeys : ((P ++ Q).map Prod.fst).toFinset = insert k ((P.map Prod.fst).toFinset) := by
    ext a
    simp only [List.map_append, List.toFinset_append, Finset.mem_union, Finset.mem_insert,
      List.mem_toFinset, List.mem_map]
    constructor
    · rintro (⟨p, hp, rfl⟩ | ⟨p, hp, rfl⟩)
      · exact Or.inr ⟨p, hp, rfl⟩
      · exact Or.inl (hQ p hp)
    · rintro (rfl | ⟨p, hp, rfl⟩)
      · match Q, hne with
        | q :: qs, _ => exact Or.inr ⟨q, by simp, hQ q (by simp)⟩
      · exact Or.inl ⟨p, hp, rfl⟩
  have hknotin : k ∉ (P.map Prod.fst).toFinset := by
    simp only [List.mem_toFinset, List.mem_map]
    rintro ⟨p, hp, hpk⟩
    exact hP p hp hpk
  rw [groupTotal_eq_sum, groupTotal_eq_sum, hkeys, Finset.sum_insert hknotin]
  have h1 : valsOf k (P ++ Q) = Q.map Prod.snd := by
    rw [valsOf_append, hvP, hvQ_self, List.nil_append]
  have h2 : ∀ x ∈ (P.map Prod.fst).toFinset,
      reduceVals m (valsOf x (P ++ Q)) = reduceVals m (valsOf x P) := by
    intro x hx
    have hxk : x ≠ k := by
      rintro rfl
      exact hknotin hx
    rw [valsOf_append, hvQ_other x hxk, List.append_nil]
  rw [h1, Finset.sum_congr rfl h2]
  ring

/-- Looking a key up in a keyed map of a list finds the image of the
key found in the list. -/
theorem find?_pair_map {β : Type} (f : Int → β) (L : List Int) (y : Int) :
    (L.map (fun x => (x, f x))).find? (fun p => p.1 == y) =
      (L.find? (fun x => x == y)).map (fun x => (x, f x)) := by
  induction L with
  | nil => rfl
  | cons x xs ih =>
      by_cases h : x = y
      · simp [List.find?_cons, h]
      · simp [List.find?_cons, h, ih]

/-- Scoping distributes over appending rows, and the flags of a frame
with replaced rows are the original flags. -/
theorem scope_rows_append (df : DFrame) (l1 l2 : List Row) :
    scope_rows df (l1 ++ l2) = scope_rows df l1 ++ scope_rows df l2 := by
  simp [scope_rows, List.filter_append]

/-- The keyed pairs distribute over appending rows. -/
theorem byYearPairsOn_append (df : DFrame) (l1 l2 : List Row) :
    byYearPairsOn df (l1 ++ l2) = byYearPairsOn df l1 ++ byYearPairsOn df l2 := by
  simp [byYearPairsOn, scope_rows_append, List.filterMap_append]

/-- Filtering the year after pairing equals pairing after filtering the
year, the bridge between the two population union functions. -/
theorem pairs_filter_comm (df : DFrame) (y : Int) (L : List Row) :
    (L.filter (fun r => r.annee == some y)).filterMap
      (fun r => (toNumOpt r.npop).map (fun q => (rowKey df r, q))) =
    ((L.filterMap (fun r =>
        match r.annee, toNumOpt r.npop with
        | some a, some q => some (a, (rowKey df r, q))
        | _, _ => none)).filter (fun p => p.1 == y)).map Prod.snd := by
  induction L with
  | nil => rfl
  | cons r rest ih =>
      cases ha : r.annee with
      | none => simpa [List.filter_cons, List.filterMap_cons, ha] using ih
      | some a =>
          cases hq : toNumOpt r.npop with
          | none =>
              by_cases hay : a = y <;>
                simpa [List.filter_cons, List.filterMap_cons, ha, hq, hay] using ih
          | some q =>
              by_cases hay : a = y <;>
                simpa [List.filter_cons, List.filterMap_cons, ha, hq, hay] using ih

/-- The pairs of one year are the year-restricted scoped rows paired
with their numeric population. -/
theorem forYear_pairs_eq (df : DFrame) (y : Int) :
    ((_filter_population_scope df).filter (fun r => r.annee == some y)).filterMap
      (fun r => (toNumOpt r.npop).map (fun q => (rowKey df r, q))) = yearPairs df y := by
  unfold yearPairs byYearPairs byYearPairsOn _filter_population_scope
  exact pairs_filter_comm df y (scope_rows df df.rows)

/-- Value of the by-year series at a year: the grouped total of the
pairs of that year when the required columns exist, else zero. -/
theorem lookupYear_population_union_by_year (df : DFrame) (m : Method) (y : Int) :
    lookupYear (population_union_by_year df m) y =
      if requiredCols df then groupTotal m (yearPairs df y) else 0 := by
  unfold population_union_by_year
  by_cases hreq : requiredCols df
  · simp only [hreq, if_true]
    by_cases hemp : (byYearPairs df).isEmpty
    · have h0 : byYearPairs df = [] := List.isEmpty_iff.mp hemp
      simp [hemp, lookupYear, yearPairs, h0, groupTotal, valsOf]
    · simp only [hemp, if_false, Bool.false_eq_true]
      unfold lookupYear
      rw [find?_pair_map (fun y0 => groupTotal m
        ((List.filter (fun p => p.1 == y0) (byYearPairs df)).map Prod.snd))]
      cases hf : (sortBy (fun a b => decide (a ≤ b))
          (((byYearPairs df).map Prod.fst).dedup)).find? (fun x => x == y) with
      | none =>
          rw [List.find?_eq_none] at hf
          have hy : y ∉ ((byYearPairs df).map Prod.fst) := by
            intro hmemy
            exact hf y (mem_sortBy.mpr (List.mem_dedup.mpr hmemy)) (by simp)
          have hnil : (byYearPairs df).filter (fun p => p.1 == y) = [] := by
            rw [List.filter_eq_nil_iff]
            intro p hp hpy
            exact hy (List.mem_map.mpr ⟨p, hp, by simpa using hpy⟩)
          simp [yearPairs, hnil, groupTotal, valsOf]
      | some x =>
          have hx : x = y := by simpa using List.find?_some hf
          subst hx
          simp [yearPairs]
  · simp [hreq, lookupYear]

/-- The scope rewrite leaves the year untouched. -/
theorem scope_map_annee (df : DFrame) (r : Row) : (scope_map df r).annee = r.annee := by
  unfold scope_map
  split <;> rfl

/-- The scope rewrite leaves the population untouched. -/
theorem scope_map_npop (df : DFrame) (r : Row) : (scope_map df r).npop = r.npop := by
  unfold scope_map
  split <;> rfl

/-- Replacing the rows of a frame does not change its per-row scope
rewrite, which reads only the flags. -/
theorem scope_map_replace_rows (df : DFrame) (X : List Row) :
    scope_map { df with rows := X } = scope_map df := rfl

/-- Replacing the rows of a frame does not change its scope predicate. -/
theorem scope_keep_replace_rows (df : DFrame) (X : List Row) :
    scope_keep { df with rows := X } = scope_keep df := rfl

/-- Replacing the rows of a frame does not change the grouping key. -/
theorem rowKey_replace_rows (df : DFrame) (X : List Row) :
    rowKey { df with rows := X } = rowKey df := rfl

/-- The keyed pairs of an explicit row list depend only on the flags of
the frame. -/
theorem byYearPairsOn_replace_rows (df : DFrame) (X L : List Row) :
    byYearPairsOn { df with rows := X } L = byYearPairsOn df L := by
  unfold byYearPairsOn scope_rows
  simp only [scope_map_replace_rows, scope_keep_replace_rows, rowKey_replace_rows]

/-- C7: the by-year population union is monotone under adding a fresh
slice: for every table, year and reducer, appending rows that all carry
one new (department, age-class) key, the given year, and positive
population values, cannot decrease the union total of that year. -/
theorem c7_population_union_by_year_monotone
    (df : DFrame) (extra : List Row) (y : Int) (k : String × Option String) (m : Method)
    (hex : ∀ r ∈ extra, r.annee = some y ∧ rowKey df (scope_map df r) = k ∧
        ∃ q, toNumOpt r.npop = some q ∧ 0 < q)
    (hnew : ∀ p ∈ yearPairs df y, p.1 ≠ k) :
    lookupYear (population_union_by_year df m) y ≤
      lookupYear (population_union_by_year { df with rows := df.rows ++ extra } m) y := by
  have hflags : requiredCols { df with rows := df.rows ++ extra } = requiredCols df := rfl
  rw [lookupYear_population_union_by_year, lookupYear_population_union_by_year, hflags]
  by_cases hreq : requiredCols df
  · simp only [hreq, if_true]
    set E := ((byYearPairsOn df extra).filter (fun p => p.1 == y)).map Prod.snd with hEdef
    have hsplit : yearPairs { df with rows := df.rows ++ extra } y = yearPairs df y ++ E := by
      unfold yearPairs byYearPairs
      rw [show ({ df with rows := df.rows ++ extra } : DFrame).rows = df.rows ++ extra from rfl,
        byYearPairsOn_replace_rows, byYearPairsOn_append, List.filter_append, List.map_append]
    have hE : ∀ e ∈ E, e.1 = k ∧ 0 < e.2 := by
      intro e he
      rw [hEdef] at he
      obtain ⟨p, hpmem, hpe⟩ := List.mem_map.mp he
      have hpf := (List.mem_filter.mp hpmem).1
      obtain ⟨r, hr, hF⟩ := List.mem_filterMap.mp hpf
      have hrm := (List.mem_filter.mp hr).1
      obtain ⟨r0, hr0, rfl⟩ := List.mem_map.mp hrm
      obtain ⟨ha, hk2, q, hq, hqpos⟩ := hex r0 hr0
      rw [scope_map_annee df r0, ha] at hF
      rw [scope_map_npop df r0, hq] at hF
      injection hF with hF2
      rw [← hpe, ← hF2, hk2]
      exact ⟨rfl, hqpos⟩
    rw [hsplit]
    rcases eq_or_ne E [] with hE0 | hEne
    · rw [hE0, List.append_nil]
    · rw [groupTotal_append_newkey m (yearPairs df y) E k (fun p hp => (hE p hp).1)
          (fun p hp => hnew p hp) hEne]
      have hpos : 0 < reduceVals m (E.map Prod.snd) := by
        apply reduceVals_pos
        · simpa using hEne
        · intro x hx
          obtain ⟨e, he, rfl⟩ := List.mem_map.mp hx
          exact (hE e he).2
      linarith
  · simp [hreq]

/-- Base table of the C7 witness: one scoped slice of year 2023. -/
def c7Base : DFrame :=
  ⟨true, false, true, false, true, false, true, false,
    [⟨some 2023, none, some "001", none, some "0-4", .null, .num 5, .null⟩]⟩

/-- Added rows of the C7 witness: one fresh slice of year 2023 with a
positive population. -/
def c7Extra : List Row :=
  [⟨some 2023, none, some "002", none, some "5-9", .null, .num 7, .null⟩]

/-- Witness for C7 at a concrete table, year, slice key and reducer. -/
theorem c7_population_union_by_year_monotone_witness :
    lookupYear (population_union_by_year c7Base .median) 2023 ≤
      lookupYear (population_union_by_year
        { c7Base with rows := c7Base.rows ++ c7Extra } .median) 2023 :=
  c7_population_union_by_year_monotone c7Base c7Extra 2023 ("002", some "5-9") .median
    (by
      intro r hr
      simp only [c7Extra, List.mem_singleton] at hr
      subst hr
      exact ⟨rfl, by decide, 7, rfl, by decide⟩)
    (by decide)

/-- On a table with the required columns and a nonempty scoped year,
the single-year union is the grouped total of the pairs of that year. -/
theorem population_union_for_year_eq (df : DFrame) (y : Int) (m : Method)
    (hreq : requiredCols df = true)
    (hne : ((_filter_population_scope df).filter (fun r => r.annee == some y)).isEmpty = false) :
    population_union_for_year df y m = some (groupTotal m (yearPairs df y)) := by
  unfold population_union_for_year
  simp only [hreq, if_true, hne, Bool.false_eq_true, if_false]
  rw [forYear_pairs_eq]

/-- One pathology row of the C1 slice: department 001, age class 0-4,
year 2023 and the given population figure. -/
def c1Row (q : Rat) : Row :=
  ⟨some 2023, none, some "001", none, some "0-4", .null, .num q, .null⟩

/-- The five pathology rows of the C1 slice, population figures 1000,
1000, 1000, 999, 1000. -/
def c1Slice : List Row :=
  [c1Row 1000, c1Row 1000, c1Row 1000, c1Row 999, c1Row 1000]

/-- Ordered insertion of a rational preserves sortedness. -/
theorem insertBy_sorted_rat (x : Rat) (l : List Rat) (hl : l.Sorted (fun a b => a ≤ b)) :
    (insertBy (fun a b => decide (a ≤ b)) x l).Sorted (fun a b => a ≤ b) := by
  induction l with
  | nil => simp [insertBy]
  | cons y ys ih =>
      rw [List.sorted_cons] at hl
      obtain ⟨hy, hys⟩ := hl
      by_cases hxy : x ≤ y
      · rw [show insertBy (fun a b => decide (a ≤ b)) x (y :: ys) = x :: y :: ys from by
          simp [insertBy, hxy]]
        rw [List.sorted_cons]
        refine ⟨?_, ?_⟩
        · intro b hb
          rcases List.mem_cons.mp hb with rfl | hb
          · exact hxy
          · exact le_trans hxy (hy b hb)
        · rw [List.sorted_cons]
          exact ⟨hy, hys⟩
      · have hyx : y ≤ x := le_of_not_le hxy
        rw [show insertBy (fun a b => decide (a ≤ b)) x (y :: ys)
            = y :: insertBy (fun a b => decide (a ≤ b)) x ys from by simp [insertBy, hxy]]
        rw [List.sorted_cons]
        refine ⟨?_, ih hys⟩
        intro b hb
        rcases List.mem_cons.mp ((insertBy_perm _ x ys).mem_iff.mp hb) with rfl | hb
        · exact hyx
        · exact hy b hb

/-- The insertion sort of rationals yields a sorted list. -/
theorem sortBy_sorted_rat (l : List Rat) :
    (sortBy (fun a b => decide (a ≤ b)) l).Sorted (fun a b => a ≤ b) := by
  induction l with
  | nil => simp [sortBy]
  | cons x xs ih => exact insertBy_sorted_rat x _ ih

/-- The median only depends on the multiset of values. -/
theorem medianList_perm (l1 l2 : List Rat) (h : l1.Perm l2) : medianList l1 = medianList l2 := by
  unfold medianList
  have hs : sortBy (fun a b => decide (a ≤ b)) l1 = sortBy (fun a b => decide (a ≤ b)) l2 :=
    List.eq_of_perm_of_sorted
      ((sortBy_perm _ l1).trans (h.trans (sortBy_perm _ l2).symm))
      (sortBy_sorted_rat l1) (sortBy_sorted_rat l2)
  rw [hs]

/-- Rows of all the other groups: the complement of one key. -/
def restOf {K : Type} [DecidableEq K] (k : K) (l : List (K × Rat)) : List (K × Rat) :=
  l.filter (fun p => !(p.1 == k))

/-- Splitting a grouped total at one present key: the total is the
total of the other groups plus the collapsed value of that group. -/
theorem groupTotal_split_key {K : Type} [DecidableEq K] (m : Method)
    (l : List (K × Rat)) (k : K) (hk : k ∈ l.map Prod.fst) :
    groupTotal m l =
      groupTotal m (restOf k l) + reduceVals m (valsOf k l) := by
  set l2 := restOf k l with hl2
  rw [restOf] at hl2
  have hkeys : (l.map Prod.fst).toFinset = insert k ((l2.map Prod.fst).toFinset) := by
    ext a
    simp only [Finset.mem_insert, List.mem_toFinset, List.mem_map, hl2, List.mem_filter]
    constructor
    · rintro ⟨p, hp, rfl⟩
      by_cases hpk : p.1 = k
      · exact Or.inl hpk
      · exact Or.inr ⟨p, ⟨hp, by simpa using hpk⟩, rfl⟩
    · rintro (rfl | ⟨p, ⟨hp, hpk⟩, rfl⟩)
      · exact List.mem_map.mp hk
      · exact ⟨p, hp, rfl⟩
  have hknotin : k ∉ (l2.map Prod.fst).toFinset := by
    simp only [List.mem_toFinset, List.mem_map, hl2, List.mem_filter]
    rintro ⟨p, ⟨hp, hpk⟩, hpa⟩
    rw [hpa] at hpk
    simp at hpk
  have hvals : ∀ x ∈ (l2.map Prod.fst).toFinset, valsOf x l2 = valsOf x l := by
    intro x hx
    have hxk : x ≠ k := by
      rintro rfl
      exact hknotin hx
    unfold valsOf
    rw [hl2, List.filter_filter]
    congr 1
    apply List.filter_congr
    intro p hp
    by_cases hpx : p.1 = x
    · simp [hpx, hxk]
    · simp [hpx]
  rw [groupTotal_eq_sum m l, groupTotal_eq_sum m l2, hkeys, Finset.sum_insert hknotin]
  have hsc : ((l2.map Prod.fst).toFinset).sum (fun x => reduceVals m (valsOf x l2))
      = ((l2.map Prod.fst).toFinset).sum (fun x => reduceVals m (valsOf x l)) :=
    Finset.sum_congr rfl (fun x hx => by rw [hvals x hx])
  rw [hsc]
  ring

/-- C1: on every table carrying the year, department and population
columns whose year 2023 data holds the (001, 0-4) slice with the
population figures 1000, 1000, 1000, 999, 1000 in any row order, the
median population union of 2023 is the union of the remaining groups
plus exactly 1000: the slice is collapsed per (department, age-class)
group before summing, so it contributes its median 1000 once, not the
naive sum 5000 and not the distinct-sum 4999. -/
theorem c1_population_union_single_slice
    (df : DFrame)
    (ha : df.hasAnnee = true) (hd : df.hasDept = true) (hn : df.hasNpop = true)
    (hk5 : (valsOf (("001" : String), some "0-4") (yearPairs df 2023)).Perm
        [1000, 1000, 1000, 999, 1000]) :
    population_union_for_year df 2023 .median
      = some (groupTotal .median
          (restOf (("001" : String), some "0-4") (yearPairs df 2023)) + 1000) := by
  have hreq : requiredCols df = true := by
    simp [requiredCols, ha, hd, hn]
  have hlen : (valsOf (("001" : String), some "0-4") (yearPairs df 2023)).length = 5 :=
    hk5.length_eq
  have hvne : valsOf (("001" : String), some "0-4") (yearPairs df 2023) ≠ [] := by
    intro h0
    rw [h0] at hlen
    simp at hlen
  have hkmem : (("001" : String), some "0-4") ∈ (yearPairs df 2023).map Prod.fst := by
    obtain ⟨v, hv⟩ := List.exists_mem_of_ne_nil _ hvne
    unfold valsOf at hv
    obtain ⟨p, hpf, hps⟩ := List.mem_map.mp hv
    have hp2 := List.mem_filter.mp hpf
    exact List.mem_map.mpr ⟨p, hp2.1, of_decide_eq_true hp2.2⟩
  have hyne : yearPairs df 2023 ≠ [] := by
    intro h0
    apply hvne
    rw [h0]
    rfl
  have ht1 : ((_filter_population_scope df).filter
      (fun r => r.annee == some 2023)).isEmpty = false := by
    rw [List.isEmpty_eq_false]
    intro h0
    apply hyne
    rw [← forYear_pairs_eq df 2023, h0]
    rfl
  rw [population_union_for_year_eq df 2023 .median hreq ht1]
  rw [groupTotal_split_key .median (yearPairs df 2023) (("001" : String), some "0-4") hkmem]
  have hmed : reduceVals .median
      (valsOf (("001" : String), some "0-4") (yearPairs df 2023)) = 1000 := by
    show medianList _ = 1000
    rw [medianList_perm _ _ hk5]
    decide
  rw [hmed]

/-- Table of the C1 witness: exactly the five slice rows. -/
def c1Df : DFrame := ⟨true, false, true, false, true, false, true, false, c1Slice⟩

/-- Witness for C1 at the table holding only the slice: its union is
the empty remainder plus 1000. -/
theorem c1_population_union_single_slice_witness :
    population_union_for_year c1Df 2023 .median
      = some (groupTotal .median
          (restOf (("001" : String), some "0-4") (yearPairs c1Df 2023)) + 1000) :=
  c1_population_union_single_slice c1Df rfl rfl rfl (by decide)

/-- C3: the zero-padding used by the coercion entry points maps 99 to
099, and the normalizer used for geographic joins leaves the Corsica
codes 2A and 2B unchanged, so they round-trip through it. -/
theorem c3_dept_normalization :
    zfill 3 "99" = "099" ∧
    _zfill_dept "2A" = "2A" ∧ _zfill_dept "2B" = "2B" ∧
    _zfill_dept (_zfill_dept "2A") = "2A" ∧ _zfill_dept (_zfill_dept "2B") = "2B" :=
  ⟨by decide, by decide, by decide, by decide, by decide⟩

/-- C5: a row survives the raw-variant year filter exactly when its
year is null or lies in the inclusive range 2000 to 2100; in
particular 1999 is dropped while 2000, 2100 and null are kept. -/
theorem c5_year_range_filter :
    (∀ (rows : List Row) (r : Row),
      r ∈ clean_raw_year_filter rows ↔
        (r ∈ rows ∧ (r.annee = none ∨ ∃ y, r.annee = some y ∧ 2000 ≤ y ∧ y ≤ 2100))) ∧
    clean_raw_year_filter
        [⟨some 1999, none, none, none, none, .null, .null, .null⟩,
         ⟨some 2000, none, none, none, none, .null, .null, .null⟩,
         ⟨some 2100, none, none, none, none, .null, .null, .null⟩,
         ⟨none, none, none, none, none, .null, .null, .null⟩] =
      [⟨some 2000, none, none, none, none, .null, .null, .null⟩,
       ⟨some 2100, none, none, none, none, .null, .null, .null⟩,
       ⟨none, none, none, none, none, .null, .null, .null⟩] := by
  constructor
  · intro rows r
    unfold clean_raw_year_filter
    rw [List.mem_filter]
    constructor
    · rintro ⟨hm, hk⟩
      refine ⟨hm, ?_⟩
      cases ha : r.annee with
      | none => exact Or.inl rfl
      | some z =>
          rw [ha] at hk
          simp only [Bool.and_eq_true, decide_eq_true_eq] at hk
          exact Or.inr ⟨z, rfl, hk.1, hk.2⟩
    · rintro ⟨hm, hcase⟩
      refine ⟨hm, ?_⟩
      rcases hcase with hnone | ⟨z, hz, h1, h2⟩
      · rw [hnone]
      · rw [hz]
        simp [h1, h2]
  · decide

/-- Witness for C5: a row of year 2000 is kept by the filter. -/
theorem c5_year_range_filter_witness :
    (⟨some 2000, none, none, none, none, .null, .null, .null⟩ : Row) ∈
      clean_raw_year_filter [⟨some 2000, none, none, none, none, .null, .null, .null⟩] :=
  (c5_year_range_filter.1 _ _).mpr
    ⟨by simp, Or.inr ⟨2000, rfl, by norm_num, by norm_num⟩⟩

/-- C6: the raw numeric repair trims, substitutes the decimal comma and
parses, nulling anything unparseable, and on every input it produces a
number or a null rather than raising. -/
theorem c6_to_float_repair :
    _to_float (.str "12,5") = .num (25 / 2) ∧
    _to_float (.str " 12,5 ") = .num (25 / 2) ∧
    _to_float (.str "abc") = .null ∧
    _to_float (.str "") = .null ∧
    (∀ v : Value, (∃ q, _to_float v = .num q) ∨ _to_float v = .null) := by
  refine ⟨by decide, by decide, by decide, by decide, ?_⟩
  intro v
  cases v with
  | null => exact Or.inr rfl
  | num q => exact Or.inl ⟨q, rfl⟩
  | str s =>
      cases h : pyFloat (String.mk ((pyStrip s.data).map (fun c => if c = ',' then '.' else c))) with
      | some q =>
          refine Or.inl ⟨q, ?_⟩
          simp only [_to_float]
          rw [h]
      | none =>
          refine Or.inr ?_
          simp only [_to_float]
          rw [h]

/-- C8: with a required column missing both population union functions
return their not-available value, and so does the single-year function
when the scoped year is empty and the by-year function when no usable
row remains; being total functions they raise nothing. -/
theorem c8_population_union_edge_cases (df : DFrame) (y : Int) (m : Method) :
    (requiredCols df = false →
      population_union_for_year df y m = none ∧ population_union_by_year df m = []) ∧
    (((_filter_population_scope df).filter (fun r => r.annee == some y)) = [] →
      population_union_for_year df y m = none) ∧
    (byYearPairs df = [] → population_union_by_year df m = []) := by
  refine ⟨?_, ?_, ?_⟩
  · intro h
    constructor
    · unfold population_union_for_year
      simp [h]
    · unfold population_union_by_year
      simp [h]
  · intro hemp
    unfold population_union_for_year
    by_cases h : requiredCols df
    · simp [h, hemp]
    · simp [h]
  · intro hemp
    unfold population_union_by_year
    by_cases h : requiredCols df
    · simp [h, hemp]
    · simp [h]

/-- Witness for C8: a table lacking the population column yields the
NaN scalar and the empty series. -/
theorem c8_population_union_edge_cases_witness :
    population_union_for_year
        (⟨true, false, true, false, true, false, false, false, []⟩ : DFrame) 2023 .median = none ∧
    population_union_by_year
        (⟨true, false, true, false, true, false, false, false, []⟩ : DFrame) .median = [] :=
  (c8_population_union_edge_cases
    (⟨true, false, true, false, true, false, false, false, []⟩ : DFrame) 2023 .median).1 (by decide)

set_option maxRecDepth 10000

/-- C4: the sniffer answers a semicolon exactly when the sample holds
at least one semicolon at least as frequent as the commas, and a comma
otherwise; the sample the reader sniffs is the first 4096 bytes, so a
semicolon at offset 4096 is invisible while one at offset 0 is seen. -/
theorem c4_sniff_sep_detection :
    (∀ s : String,
      (sniff_sep s = ";" ↔ (0 < charCount s ';' ∧ charCount s ',' ≤ charCount s ';')) ∧
      (sniff_sep s = ";" ∨ sniff_sep s = ",")) ∧
    sniff_sep "a;b;c" = ";" ∧
    sniff_sep "a,b,c" = "," ∧
    sniff_sep "a;b,c" = ";" ∧
    read_csv_sep (String.mk (List.replicate 4096 'a' ++ [';'])) = "," ∧
    read_csv_sep (String.mk (';' :: List.replicate 4096 'a')) = ";" := by
  refine ⟨?_, by decide, by decide, by decide, by decide, by decide⟩
  intro s
  constructor
  · unfold sniff_sep
    split
    next h =>
      simp only [Bool.and_eq_true, decide_eq_true_eq] at h
      simp [h]
    next h =>
      simp only [Bool.and_eq_true, decide_eq_true_eq, not_and] at h
      constructor
      · intro habs
        exact absurd habs (by decide)
      · intro hrhs
        exact absurd hrhs.2 (h hrhs.1)
  · unfold sniff_sep
    split
    · exact Or.inl rfl
    · exact Or.inr rfl

/-- Witness for C4: a sample with a tied count and a semicolon present
detects the semicolon. -/
theorem c4_sniff_sep_detection_witness : sniff_sep ";," = ";" :=
  ((c4_sniff_sep_detection.1 ";,").1).mpr ⟨by decide, by decide⟩

/-- Two-row table of the C2 example: one region A, prevalence 10 with
population 100 and prevalence 20 with population 300. -/
def c2Df : DFrame :=
  ⟨false, true, false, false, false, false, true, true,
    [⟨none, some "A", none, none, none, .null, .num 100, .num 10⟩,
     ⟨none, some "A", none, none, none, .null, .num 300, .num 20⟩]⟩

/-- C2: every value in the weighted per-region table is the
population-weighted mean, the sum of prevalence times population over
the sum of population within the group of rows carrying region,
prevalence and population; on the two-row example the builder reports
the weighted mean 17.5 and the unweighted per-region mean 15. -/
theorem c2_by_region_weighted_mean :
    (∀ (df : DFrame) (g : String) (v : Rat),
      (g, v) ∈ by_region_weightedOf df →
      v = (((weightedPts df).filter (fun t => t.1 == g)).map (fun t => t.2.1 * t.2.2)).sum /
          (((weightedPts df).filter (fun t => t.1 == g)).map (fun t => t.2.2)).sum) ∧
    (make_tables c2Df).by_region_weighted = some [("A", 35 / 2)] ∧
    (make_tables c2Df).by_region = some [("A", 15)] := by
  refine ⟨?_, by decide, by decide⟩
  intro df g v hmem
  unfold by_region_weightedOf at hmem
  rw [mem_sortBy] at hmem
  obtain ⟨g0, hg0, heq⟩ := List.mem_map.mp hmem
  injection heq with h1 h2
  subst h1
  subst h2
  simp only [List.map_map]
  rfl

/-- Witness for C2: on the two-row table the reported 17.5 is the
weighted-mean formula of region A. -/
theorem c2_by_region_weighted_mean_witness :
    (35 : Rat) / 2 =
      (((weightedPts c2Df).filter (fun t => t.1 == "A")).map (fun t => t.2.1 * t.2.2)).sum /
      (((weightedPts c2Df).filter (fun t => t.1 == "A")).map (fun t => t.2.2)).sum :=
  c2_by_region_weighted_mean.1 c2Df "A" (35 / 2) (by decide)

/-- A measure cell that is already numeric or missing. -/
def numOrNull : Value → Bool
  | .str _ => false
  | _ => true

/-- A typed record table: in every present measure column every cell is
a number or a null, which is what the Type Coercion stage outputs. -/
def isTypedTable (df : DFrame) : Bool :=
  df.rows.all (fun r =>
    (!df.hasNtop || numOrNull r.ntop) &&
    ((!df.hasNpop || numOrNull r.npop) &&
     (!df.hasPrev || numOrNull r.prev)))

/-- The numeric coercion is the identity on numeric or missing cells. -/
theorem to_numeric_id (v : Value) (h : numOrNull v = true) : to_numeric v = v := by
  cases v with
  | num q => rfl
  | null => rfl
  | str s => simp [numOrNull] at h

/-- One guarded cell of coerce_measures is unchanged when the column is
absent or the cell already numeric or missing. -/
theorem coerce_field_id (b : Bool) (v : Value) (h : b = false ∨ numOrNull v = true) :
    (if b then to_numeric v else v) = v := by
  rcases h with h | h
  · rw [h]
    rfl
  · cases b with
    | false => rfl
    | true => simpa using to_numeric_id v h

/-- C9: the table builder does not mutate a typed input observably: its
only write, the numeric coercion of the measure columns, is the
identity there, and hence running the builder again on the frame it
left behind yields the identical derived tables. -/
theorem c9_make_tables_pure (df : DFrame) (h : isTypedTable df = true) :
    coerce_measures df = df ∧ make_tables (coerce_measures df) = make_tables df := by
  have hid : coerce_measures df = df := by
    unfold coerce_measures
    obtain ⟨fa, fr, fd, fs, fc, fnt, fnp, fp, rows⟩ := df
    unfold isTypedTable at h
    simp only [List.all_eq_true, Bool.and_eq_true, Bool.or_eq_true, Bool.not_eq_true'] at h
    simp only [DFrame.mk.injEq, true_and]
    have hrow : ∀ r ∈ rows,
        ({ r with
            ntop := if fnt then to_numeric r.ntop else r.ntop,
            npop := if fnp then to_numeric r.npop else r.npop,
            prev := if fp then to_numeric r.prev else r.prev } : Row) = r := by
      intro r hr
      obtain ⟨h1, h2, h3⟩ := h r hr
      cases r with
      | mk a g d sx ag nt np pv =>
          simp only [Row.mk.injEq, true_and]
          exact ⟨coerce_field_id _ _ h1, coerce_field_id _ _ h2, coerce_field_id _ _ h3⟩
    calc rows.map _ = rows.map id := List.map_congr_left hrow
      _ = rows := List.map_id rows
  exact ⟨hid, by rw [hid]⟩

/-- Typed two-row table of the C9 witness. -/
def c9Df : DFrame :=
  ⟨true, true, false, false, false, true, true, true,
    [⟨some 2021, some "B", none, none, none, .num 4, .num 10, .num 2⟩,
     ⟨some 2022, some "B", none, none, none, .null, .num 20, .null⟩]⟩

/-- Witness for C9 at a concrete typed table. -/
theorem c9_make_tables_pure_witness :
    isTypedTable c9Df = true ∧
      (coerce_measures c9Df = c9Df ∧ make_tables (coerce_measures c9Df) = make_tables c9Df) :=
  ⟨by decide, c9_make_tables_pure c9Df (by decide)⟩

/-- C10: every build carries the dq summary, a plain field of the
result rather than an optional entry; its weight and sex flags mirror
exactly the presence of the population and sex columns, and its row
count, column count and column inventory reflect the input table. -/
theorem c10_dq_always_present (df : DFrame) :
    (make_tables df).dq.has_weight = df.hasNpop ∧
    (make_tables df).dq.has_sex = df.hasSexe ∧
    (make_tables df).dq.rows = df.rows.length ∧
    (make_tables df).dq.cols = (colsList df).length ∧
    (make_tables df).dq.cols_list = colsList df := by
  refine ⟨rfl, rfl, ?_, rfl, rfl⟩
  show (coerce_measures df).rows.length = df.rows.length
  unfold coerce_measures
  exact List.length_map _ _
